import Mathlib

/-!
Verification of the FHEBlackjack contract (src/contracts/contracts/FHEBlackjack.sol).

The encrypted values (`euint8`, `euint32`) are embedded by their plaintext
views: an `euint8` is a `Nat` below 256, an `euint32` a `Nat` below `2 ^ 32`,
and every `FHE.add` on 32-bit values is modelled as addition followed by
`% 2 ^ 32`.  `FHE.select` over an `ebool` becomes `if`/`then`/`else` on the
corresponding decidable proposition.  The FHEVM access-control list is
modelled per deck slot by a three-point lattice `Level`
(`engineOnly < ownerDec < publicDec`): `FHE.allowThis` grants `engineOnly`,
`FHE.allow(·, player)` grants `ownerDec`, `FHE.makePubliclyDecryptable`
grants `publicDec`, and grants only ever raise the level (ACL entries
accumulate).  Solidity `require` failures revert the transaction, so each
external function is a partial map on contract states, embedded as
`Except String BJState` carrying the revert string.
-/

namespace FHEBlackjack

/-- Modulus of a 32-bit encrypted integer. -/
def W32 : Nat := 2 ^ 32

/-- Function `getBlackjackBaseValue` (FHEBlackjack.sol lines 49-68): maps a raw card
code to its base Blackjack value via a select on the face-card predicate. -/
def getBlackjackBaseValue (card : Nat) : Nat :=
  if card = 11 ∨ card = 12 ∨ card = 13 then 10 else (0 + card) % W32

/-- Function `calculateBlackjackSum` (lines 76-91): soft-Ace rule, a single select on
`aceCount > 0 ∧ baseSum + 10 ≤ 21`. -/
def calculateBlackjackSum (baseSum aceCount : Nat) : Nat :=
  let sumWithSoftAce := (baseSum + 10) % W32
  if 0 < aceCount ∧ sumWithSoftAce ≤ 21 then sumWithSoftAce else baseSum

/-- Function `addCardToSum` (lines 100-114): returns
`(newBaseSum, newAceCount, finalSum)`. -/
def addCardToSum (currentBaseSum currentAceCount card : Nat) :
    Nat × Nat × Nat :=
  let baseValue := getBlackjackBaseValue card
  let newBaseSum := (currentBaseSum + baseValue) % W32
  let newAceCount := (currentAceCount + (if card = 1 then 1 else 0)) % W32
  (newBaseSum, newAceCount, calculateBlackjackSum newBaseSum newAceCount)

/-- Disclosure level of a ciphertext handle in the FHEVM access-control
list: usable only by the contract, decryptable by the hand's owner, or
publicly decryptable. -/
inductive Level
  | engineOnly
  | ownerDec
  | publicDec
deriving DecidableEq, Repr

/-- Numeric height of a disclosure level. -/
def Level.toNat : Level → Nat
  | .engineOnly => 0
  | .ownerDec => 1
  | .publicDec => 2

/-- ACL entries accumulate: a grant can only raise the disclosure level. -/
def raiseLevel (old given : Level) : Level :=
  if old.toNat ≤ given.toNat then given else old

/-- Issue a grant at level `l` on deck slot `i`. -/
def grant (f : Fin 52 → Level) (i : Fin 52) (l : Level) : Fin 52 → Level :=
  fun j => if j = i then raiseLevel (f j) l else f j

/-- The `Phase` enum (line 8). -/
inductive Phase
  | PlayerTurn
  | DealerTurn
  | GameEnding
  | Completed
deriving DecidableEq, Repr

/-- The `Game` struct (lines 10-31); `exists` is modelled by wrapping in
`Option` inside the state's `games` map.  Encrypted fields hold their
plaintext views; `deckLevel i` is the ACL state of the handle `deck[i]`
(the four dealt cards are aliases of slots 0-3), `winFlagLevel` the ACL
state of the current `winFlag` handle. -/
structure Game where
  player : Nat
  betAmount : Nat
  plainBetAmount : Nat
  deck : Fin 52 → Nat
  deckIndex : Nat
  playerCard1 : Nat
  playerCard2 : Nat
  dealerCardUp : Nat
  dealerHoleCard : Nat
  playerSum : Nat
  dealerSum : Nat
  playerBaseSum : Nat
  dealerBaseSum : Nat
  playerAceCount : Nat
  dealerAceCount : Nat
  bustFlag : Nat
  winFlag : Nat
  continueFlag : Nat
  phase : Phase
  deckLevel : Fin 52 → Level
  winFlagLevel : Level

/-- Contract storage: `games`, `nextGameId`, `chipBalances`, plus the
contract's ETH balance (`address(this).balance`). -/
structure BJState where
  games : Nat → Option Game
  nextGameId : Nat
  chipBalances : Nat → Nat
  contractEth : Nat

/-- State right after the constructor (line 42-44). -/
def initialState : BJState where
  games := fun _ => none
  nextGameId := 1
  chipBalances := fun _ => 0
  contractEth := 0

/-- Constant `CHIP_PER_ETH` (line 40). -/
def CHIP_PER_ETH : Nat := 10000

/-- One ether in wei. -/
def oneEther : Nat := 10 ^ 18

/-- Function `buyChips` (lines 121-130); `value` is `msg.value`. -/
def buyChips (s : BJState) (sender value : Nat) : Except String BJState :=
  if value = 0 then .error "Send ETH to buy CHIP"
  else
    let amount := value * CHIP_PER_ETH / oneEther
    if amount = 0 then .error "Amount too small"
    else .ok { s with
      chipBalances := fun a =>
        if a = sender then s.chipBalances a + amount else s.chipBalances a,
      contractEth := s.contractEth + value }

/-- Function `sellChips` (lines 134-149). -/
def sellChips (s : BJState) (sender chipAmount : Nat) :
    Except String BJState :=
  if chipAmount = 0 then .error "Zero amount"
  else if s.chipBalances sender < chipAmount then
    .error "Insufficient CHIP balance"
  else
    let ethAmount := chipAmount * oneEther / CHIP_PER_ETH
    if ethAmount = 0 then .error "Amount too small"
    else if s.contractEth < ethAmount then .error "Casino lacks ETH"
    else .ok { s with
      chipBalances := fun a =>
        if a = sender then s.chipBalances a - chipAmount
        else s.chipBalances a,
      contractEth := s.contractEth - ethAmount }

/-- Fallback `receive()` (line 571): the contract accepts plain ETH transfers. -/
def receiveEth (s : BJState) (value : Nat) : BJState :=
  { s with contractEth := s.contractEth + value }

/-- Fresh `Game` record built by `startGame` (lines 180-231): deal indices
0-3, accumulate the initial player and dealer sums through `addCardToSum`,
let the owner decrypt both player cards, publish the dealer up-card, and
keep the hole card engine-only. -/
def startGameRecord (sender : Nat) (encDeck : Fin 52 → Nat)
    (encryptedBet plainBet : Nat) : Game :=
  let deckVals : Fin 52 → Nat := fun i => encDeck i % 256
  let card1 := deckVals ⟨0, by decide⟩
  let card2 := deckVals ⟨1, by decide⟩
  let cardUp := deckVals ⟨2, by decide⟩
  let hole := deckVals ⟨3, by decide⟩
  let p1 := addCardToSum 0 0 card1
  let p2 := addCardToSum p1.1 p1.2.1 card2
  let d1 := addCardToSum 0 0 cardUp
  { player := sender
    betAmount := encryptedBet % W32
    plainBetAmount := plainBet
    deck := deckVals
    deckIndex := 4
    playerCard1 := card1
    playerCard2 := card2
    dealerCardUp := cardUp
    dealerHoleCard := hole
    playerSum := p2.2.2
    dealerSum := d1.2.2
    playerBaseSum := p2.1
    dealerBaseSum := d1.1
    playerAceCount := p2.2.1
    dealerAceCount := d1.2.1
    bustFlag := 0
    winFlag := 0
    continueFlag := 0
    phase := .PlayerTurn
    deckLevel :=
      grant (grant (grant (fun _ => .engineOnly)
        ⟨0, by decide⟩ .ownerDec) ⟨1, by decide⟩ .ownerDec)
        ⟨2, by decide⟩ .publicDec
    winFlagLevel := .engineOnly }

/-- Game-record update performed by a successful `hit` (lines 240-259). -/
def hitGame (g : Game) (h : g.deckIndex < 52) : Game :=
  let newCard := g.deck ⟨g.deckIndex, h⟩
  let r := addCardToSum g.playerBaseSum g.playerAceCount newCard
  { g with
    deckIndex := (g.deckIndex + 1) % 256
    playerBaseSum := r.1
    playerAceCount := r.2.1
    playerSum := r.2.2
    bustFlag := if 21 < r.2.2 then 1 else 0
    deckLevel := grant g.deckLevel ⟨g.deckIndex, h⟩ .ownerDec }

/-- Game-record update performed by a successful `stand` (lines 271-297). -/
def standGame (g : Game) : Game :=
  let r := addCardToSum g.dealerBaseSum g.dealerAceCount g.dealerHoleCard
  { g with
    dealerBaseSum := r.1
    dealerAceCount := r.2.1
    dealerSum := r.2.2
    continueFlag := if r.2.2 < 17 then 1 else 0
    phase := .DealerTurn
    deckLevel := grant g.deckLevel ⟨3, by decide⟩ .engineOnly }

/-- Game-record update performed by a successful `dealerHit`
(lines 305-337). -/
def dealerHitGame (g : Game) (h : g.deckIndex < 52) : Game :=
  let c := g.deck ⟨g.deckIndex, h⟩
  let r := addCardToSum g.dealerBaseSum g.dealerAceCount c
  { g with
    continueFlag := if g.dealerSum < 17 then 1 else 0
    deckIndex := (g.deckIndex + 1) % 256
    dealerBaseSum := if g.dealerSum < 17 then r.1 else g.dealerBaseSum
    dealerAceCount := if g.dealerSum < 17 then r.2.1 else g.dealerAceCount
    dealerSum := if g.dealerSum < 17 then r.2.2 else g.dealerSum
    deckLevel := grant g.deckLevel ⟨g.deckIndex, h⟩ .publicDec }

/-- Game-record update performed by a successful `setBustPhase`
(line 349). -/
def bustGame (g : Game) : Game := { g with phase := .GameEnding }

/-- Game-record update performed by a successful `endGame`
(lines 356-375). -/
def settleGame (g : Game) : Game :=
  { g with
    winFlag := if g.dealerSum < g.playerSum ∨ 21 < g.dealerSum then 1 else 0
    winFlagLevel := .publicDec
    phase := .Completed
    deckLevel :=
      grant (grant (grant (grant g.deckLevel
        ⟨0, by decide⟩ .publicDec) ⟨1, by decide⟩ .publicDec)
        ⟨3, by decide⟩ .ownerDec) ⟨3, by decide⟩ .publicDec }

/-- Function `startGame` (lines 162-232).  `encDeck` holds the plaintext views of the
52 caller-supplied encrypted cards (each an `euint8`, hence reduced mod 256
by `fromExternal`), `encryptedBet` the plaintext view of the encrypted bet.
The new game is stored at id `s.nextGameId`. -/
def startGame (s : BJState) (sender : Nat) (encDeck : Fin 52 → Nat)
    (encryptedBet plainBet : Nat) : Except String BJState :=
  if plainBet = 0 then .error "Bet required"
  else if s.chipBalances sender < plainBet then
    .error "Insufficient CHIP balance"
  else
    let g := startGameRecord sender encDeck encryptedBet plainBet
    .ok { s with
      games := fun id => if id = s.nextGameId then some g else s.games id,
      nextGameId := s.nextGameId + 1,
      chipBalances := fun a =>
        if a = sender then s.chipBalances a - plainBet
        else s.chipBalances a }

/-- Write back the updated game record (`games[gameId]` is a storage
reference, so every mutation lands in the mapping). -/
def setGame (s : BJState) (gameId : Nat) (g : Game) : BJState :=
  { s with games := fun id => if id = gameId then some g else s.games id }

/-- Function `hit` (lines 234-264): draw `deck[deckIndex]` (post-increment), fold it
into the player totals, recompute and publish `bustFlag`. -/
def hit (s : BJState) (sender gameId : Nat) : Except String BJState :=
  match s.games gameId with
  | none => .error "invalid player"
  | some g =>
    if g.player ≠ sender then .error "invalid player"
    else if g.phase ≠ Phase.PlayerTurn then .error "wrong phase"
    else if h : g.deckIndex < 52 then .ok (setGame s gameId (hitGame g h))
    else .error "deck empty"

/-- Function `stand` (lines 266-298): fold the hole card into the dealer totals,
publish `dealerSum` and `continueFlag`, move to `DealerTurn`; the hole card
itself only receives `FHE.allowThis` (an engine-level grant). -/
def stand (s : BJState) (sender gameId : Nat) : Except String BJState :=
  match s.games gameId with
  | none => .error "invalid player"
  | some g =>
    if g.player ≠ sender then .error "invalid player"
    else if g.phase ≠ Phase.PlayerTurn then .error "wrong phase"
    else .ok (setGame s gameId (standGame g))

/-- Function `dealerHit` (lines 300-342): recompute `continueFlag` from the current
`dealerSum`, always draw `deck[deckIndex]` (post-increment, published), but
fold the drawn card into the dealer totals only under the select condition
`dealerSum < 17`. -/
def dealerHit (s : BJState) (gameId : Nat) : Except String BJState :=
  match s.games gameId with
  | none => .error "invalid state"
  | some g =>
    if g.phase ≠ Phase.DealerTurn then .error "invalid state"
    else if h : g.deckIndex < 52 then
      .ok (setGame s gameId (dealerHitGame g h))
    else .error "deck empty"

/-- Function `setBustPhase` (lines 345-350). -/
def setBustPhase (s : BJState) (sender gameId : Nat) :
    Except String BJState :=
  match s.games gameId with
  | none => .error "invalid player"
  | some g =>
    if g.player ≠ sender then .error "invalid player"
    else if g.phase ≠ Phase.PlayerTurn then .error "wrong phase"
    else .ok (setGame s gameId (bustGame g))

/-- Function `endGame` (lines 352-376): publish both player cards, grant the owner
then the public the hole card, compute and publish `winFlag`, complete. -/
def endGame (s : BJState) (gameId : Nat) : Except String BJState :=
  match s.games gameId with
  | none => .error "invalid state"
  | some g =>
    if g.phase = Phase.GameEnding ∨ g.phase = Phase.DealerTurn then
      .ok (setGame s gameId (settleGame g))
    else .error "invalid state"

/-- Function `payoutWinner` (lines 385-403): on a completed game the owner may claim;
a `true` claim credits `2 * plainBetAmount` to the player's balance. -/
def payoutWinner (s : BJState) (sender gameId : Nat) (playerWon : Bool) :
    Except String BJState :=
  match s.games gameId with
  | none => .error "no game"
  | some g =>
    if g.phase ≠ Phase.Completed then .error "not finished"
    else if g.player ≠ sender then .error "only player can claim"
    else if playerWon then
      .ok { s with
        chipBalances := fun a =>
          if a = g.player then s.chipBalances a + g.plainBetAmount * 2
          else s.chipBalances a }
    else .ok s

/-- One external transaction against the contract. -/
inductive Op
  | start (sender : Nat) (encDeck : Fin 52 → Nat) (encryptedBet plainBet : Nat)
  | hitOp (sender gameId : Nat)
  | standOp (sender gameId : Nat)
  | dealerHitOp (gameId : Nat)
  | setBustOp (sender gameId : Nat)
  | endGameOp (gameId : Nat)
  | payoutOp (sender gameId : Nat) (playerWon : Bool)
  | buyOp (sender value : Nat)
  | sellOp (sender chipAmount : Nat)
  | receiveOp (value : Nat)

/-- Dispatch one transaction. -/
def applyOp (s : BJState) : Op → Except String BJState
  | .start sender encDeck encryptedBet plainBet =>
      startGame s sender encDeck encryptedBet plainBet
  | .hitOp sender gameId => hit s sender gameId
  | .standOp sender gameId => stand s sender gameId
  | .dealerHitOp gameId => dealerHit s gameId
  | .setBustOp sender gameId => setBustPhase s sender gameId
  | .endGameOp gameId => endGame s gameId
  | .payoutOp sender gameId playerWon => payoutWinner s sender gameId playerWon
  | .buyOp sender value => buyChips s sender value
  | .sellOp sender chipAmount => sellChips s sender chipAmount
  | .receiveOp value => .ok (receiveEth s value)

/-- One successful transaction (a reverted one leaves no trace on chain). -/
def step (s s' : BJState) : Prop :=
  ∃ op, applyOp s op = Except.ok s'

/-- States reachable from the freshly deployed contract. -/
def Reachable (s : BJState) : Prop :=
  Relation.ReflTransGen step initialState s

/-- Successor state of a transaction known to succeed. -/
def stepOk (s : BJState) (op : Op) : BJState :=
  match applyOp s op with
  | .ok s' => s'
  | .error _ => s

/-- Sample deck: every slot holds card code 10. -/
def demoDeck : Fin 52 → Nat := fun _ => 10

/-- Sample game in `DealerTurn` after two tens each side, hole card folded,
matching what `startGame` then `stand` produce on `demoDeck`. -/
def demoGameDT : Game where
  player := 7
  betAmount := 100
  plainBetAmount := 100
  deck := demoDeck
  deckIndex := 4
  playerCard1 := 10
  playerCard2 := 10
  dealerCardUp := 10
  dealerHoleCard := 10
  playerSum := 20
  dealerSum := 20
  playerBaseSum := 20
  dealerBaseSum := 20
  playerAceCount := 0
  dealerAceCount := 0
  bustFlag := 0
  winFlag := 0
  continueFlag := 0
  phase := .DealerTurn
  deckLevel := fun _ => .engineOnly
  winFlagLevel := .engineOnly

/-- Sample contract state holding `demoGameDT` as game 1. -/
def demoStateDT : BJState where
  games := fun id => if id = 1 then some demoGameDT else none
  nextGameId := 2
  chipBalances := fun _ => 1000
  contractEth := 0

/-- Sample completed game (owner 7). -/
def demoGameDone : Game := { demoGameDT with phase := .Completed }

/-- Sample game in `PlayerTurn` with the deck exhausted. -/
def demoGameFull : Game :=
  { demoGameDT with phase := .PlayerTurn, deckIndex := 52 }

/-- Sample contract state used for the error-path witnesses: game 1 is
completed, game 4 has an exhausted deck, id 2 does not exist, and every
chip balance is zero. -/
def demoStateErr : BJState where
  games := fun id =>
    if id = 1 then some demoGameDone
    else if id = 4 then some demoGameFull
    else none
  nextGameId := 5
  chipBalances := fun _ => 0
  contractEth := 0

def holeIdx : Fin 52 := ⟨3, by decide⟩

/-- Per-game invariant, parameterised by the contract's `nextGameId`:
ids are allocated below `nextGameId`; the cursor stays in `[4, 52]`; deck
plaintexts are 8-bit; the player base sum is bounded by 255 per dealt card
(so 32-bit additions never wrap); `playerSum` is the soft-Ace view of the
base accumulators; a set `bustFlag` certifies a bust; and before the game
completes the hole card (deck slot 3) stays engine-only. -/
def GameInv (nextId gid : Nat) (g : Game) : Prop :=
  gid < nextId ∧
  4 ≤ g.deckIndex ∧ g.deckIndex ≤ 52 ∧
  (∀ i, g.deck i < 256) ∧
  g.playerBaseSum ≤ 255 * g.deckIndex ∧
  g.playerSum = calculateBlackjackSum g.playerBaseSum g.playerAceCount ∧
  (g.bustFlag = 1 → 21 < g.playerSum) ∧
  (g.phase ≠ Phase.Completed → g.deckLevel holeIdx = Level.engineOnly)

/-- Contract-level invariant. -/
def Inv (s : BJState) : Prop :=
  1 ≤ s.nextGameId ∧
  ∀ gid g, s.games gid = some g → GameInv s.nextGameId gid g

def traceS1 : BJState := stepOk initialState (Op.buyOp 7 oneEther)

def traceS2 : BJState := stepOk traceS1 (Op.start 7 demoDeck 100 100)

def traceG2 : Game := startGameRecord 7 demoDeck 100 100

def traceS3 : BJState := stepOk traceS2 (Op.hitOp 7 1)

def traceG3 : Game := hitGame traceG2 (by decide)

def traceS4 : BJState := stepOk traceS3 (Op.hitOp 7 1)

def traceG4 : Game := hitGame traceG3 (by decide)

def traceS5 : BJState := stepOk traceS2 (Op.standOp 7 1)

def traceG5 : Game := standGame traceG2

def traceS6 : BJState := stepOk traceS5 (Op.endGameOp 1)

def traceG6 : Game := settleGame traceG5

/-- C1: `addCardToSum(baseSum, aceCount, card)` returns
`newBaseSum = baseSum + scoreValue(card)`, increments the Ace count exactly
when `card = 1`, and returns `finalSum = newBaseSum + 10` exactly when the
new Ace count is positive and `newBaseSum + 10 ≤ 21` (all 32-bit additions
taken modulo `2 ^ 32`), else `finalSum = newBaseSum`; adding two Aces to an
empty hand yields `finalSum = 12`. -/
theorem addCardToSum_spec (base ace card nb na fs : Nat)
    (h : addCardToSum base ace card = (nb, na, fs)) :
    nb = (base + getBlackjackBaseValue card) % W32 ∧
    na = (ace + (if card = 1 then 1 else 0)) % W32 ∧
    fs = (if 0 < na ∧ (nb + 10) % W32 ≤ 21 then (nb + 10) % W32 else nb) ∧
    (addCardToSum (addCardToSum 0 0 1).1 (addCardToSum 0 0 1).2.1 1).2.2
      = 12 := by
  simp only [addCardToSum, calculateBlackjackSum, Prod.mk.injEq] at h
  obtain ⟨h1, h2, h3⟩ := h
  subst h1; subst h2
  refine ⟨rfl, rfl, ?_, by decide⟩
  exact h3.symm

/-- Witness for C1 at base 3, ace count 0, an Ace drawn. -/
theorem addCardToSum_spec_witness :
    (4 : Nat) = (3 + getBlackjackBaseValue 1) % W32 ∧
    (1 : Nat) = (0 + (if (1 : Nat) = 1 then 1 else 0)) % W32 ∧
    (14 : Nat)
      = (if (0 : Nat) < 1 ∧ ((4 : Nat) + 10) % W32 ≤ 21
          then ((4 : Nat) + 10) % W32 else 4) ∧
    (addCardToSum (addCardToSum 0 0 1).1 (addCardToSum 0 0 1).2.1 1).2.2
      = 12 :=
  addCardToSum_spec 3 0 1 4 1 14 (by decide)

/-- C6: for every raw card code 1-13, `getBlackjackBaseValue` returns 10 on
codes 11, 12, 13, returns 1 on code 1, and the code itself on 2-10. -/
theorem getBlackjackBaseValue_spec (card : Nat)
    (hlo : 1 ≤ card) (hhi : card ≤ 13) :
    ((card = 11 ∨ card = 12 ∨ card = 13) → getBlackjackBaseValue card = 10) ∧
    (card = 1 → getBlackjackBaseValue card = 1) ∧
    (2 ≤ card → card ≤ 10 → getBlackjackBaseValue card = card) := by
  interval_cases card <;> decide

/-- Witness for C6 at card codes 11, 1 and 7. -/
theorem getBlackjackBaseValue_spec_witness :
    getBlackjackBaseValue 11 = 10 ∧
    getBlackjackBaseValue 1 = 1 ∧
    getBlackjackBaseValue 7 = 7 :=
  ⟨(getBlackjackBaseValue_spec 11 (by decide) (by decide)).1 (Or.inl rfl),
   (getBlackjackBaseValue_spec 1 (by decide) (by decide)).2.1 rfl,
   (getBlackjackBaseValue_spec 7 (by decide) (by decide)).2.2
     (by decide) (by decide)⟩

theorem setGame_games_self (s : BJState) (gid : Nat) (g : Game) :
    (setGame s gid g).games gid = some g := by
  simp [setGame]

theorem raiseLevel_publicDec (a : Level) :
    raiseLevel a .publicDec = .publicDec := by
  cases a <;> rfl

/-- C2: on a game in `DealerTurn` with a non-exhausted deck, `dealerHit`
always advances `deckIndex` by exactly one; when `dealerSum ≥ 17` it leaves
`dealerSum`, `dealerBaseSum` and `dealerAceCount` unchanged, and when
`dealerSum < 17` it folds the drawn card `deck[deckIndex]` into the dealer
totals via `addCardToSum`. -/
theorem dealerHit_frame_spec (s : BJState) (gid : Nat) (g : Game)
    (hg : s.games gid = some g) (hph : g.phase = Phase.DealerTurn)
    (hidx : g.deckIndex < 52) :
    ∃ g', dealerHit s gid = .ok (setGame s gid g') ∧
      g'.deckIndex = g.deckIndex + 1 ∧
      (17 ≤ g.dealerSum →
        g'.dealerSum = g.dealerSum ∧
        g'.dealerBaseSum = g.dealerBaseSum ∧
        g'.dealerAceCount = g.dealerAceCount) ∧
      (g.dealerSum < 17 →
        (g'.dealerBaseSum, g'.dealerAceCount, g'.dealerSum) =
          addCardToSum g.dealerBaseSum g.dealerAceCount
            (g.deck ⟨g.deckIndex, hidx⟩)) := by
  have hrun : dealerHit s gid =
      Except.ok (setGame s gid (dealerHitGame g hidx)) := by
    unfold dealerHit
    rw [hg]
    simp only [hph, ne_eq, not_true_eq_false, if_false, hidx, dif_pos]
  refine ⟨_, hrun, ?_, ?_, ?_⟩
  · show (g.deckIndex + 1) % 256 = g.deckIndex + 1
    omega
  · intro h17
    refine ⟨?_, ?_, ?_⟩ <;> simp only [dealerHitGame] <;>
      rw [if_neg (by omega)]
  · intro h17
    simp only [dealerHitGame]
    rw [if_pos h17, if_pos h17, if_pos h17]

/-- Witness for C2 on `demoStateDT` (dealer already at 20). -/
theorem dealerHit_frame_spec_witness :
    ∃ g', dealerHit demoStateDT 1 = .ok (setGame demoStateDT 1 g') ∧
      g'.deckIndex = demoGameDT.deckIndex + 1 ∧
      (17 ≤ demoGameDT.dealerSum →
        g'.dealerSum = demoGameDT.dealerSum ∧
        g'.dealerBaseSum = demoGameDT.dealerBaseSum ∧
        g'.dealerAceCount = demoGameDT.dealerAceCount) ∧
      (demoGameDT.dealerSum < 17 →
        (g'.dealerBaseSum, g'.dealerAceCount, g'.dealerSum) =
          addCardToSum demoGameDT.dealerBaseSum demoGameDT.dealerAceCount
            (demoGameDT.deck ⟨demoGameDT.deckIndex, by decide⟩)) :=
  dealerHit_frame_spec demoStateDT 1 demoGameDT rfl rfl (by decide)

/-- C4: on an existing game in phase `GameEnding` or `DealerTurn`, `endGame`
makes both player cards (deck slots 0 and 1) and the dealer hole card (slot
3) publicly decryptable, sets `winFlag` to 1 exactly when
`playerSum > dealerSum ∨ dealerSum > 21` and to 0 otherwise, makes
`winFlag` publicly decryptable, and sets the phase to `Completed`. -/
theorem endGame_spec (s : BJState) (gid : Nat) (g : Game)
    (hg : s.games gid = some g)
    (hph : g.phase = Phase.GameEnding ∨ g.phase = Phase.DealerTurn) :
    ∃ g', endGame s gid = .ok (setGame s gid g') ∧
      g'.deckLevel ⟨0, by decide⟩ = .publicDec ∧
      g'.deckLevel ⟨1, by decide⟩ = .publicDec ∧
      g'.deckLevel ⟨3, by decide⟩ = .publicDec ∧
      g'.winFlag =
        (if g.dealerSum < g.playerSum ∨ 21 < g.dealerSum then 1 else 0) ∧
      g'.winFlagLevel = .publicDec ∧
      g'.phase = .Completed := by
  have hrun : endGame s gid =
      Except.ok (setGame s gid (settleGame g)) := by
    unfold endGame
    rw [hg]
    simp only [if_pos hph]
  refine ⟨_, hrun, ?_, ?_, ?_, rfl, rfl, rfl⟩ <;>
    simp [settleGame, grant, raiseLevel_publicDec, Fin.mk.injEq]

/-- Witness for C4 on `demoStateDT`. -/
theorem endGame_spec_witness :
    ∃ g', endGame demoStateDT 1 = .ok (setGame demoStateDT 1 g') ∧
      g'.deckLevel ⟨0, by decide⟩ = .publicDec ∧
      g'.deckLevel ⟨1, by decide⟩ = .publicDec ∧
      g'.deckLevel ⟨3, by decide⟩ = .publicDec ∧
      g'.winFlag =
        (if demoGameDT.dealerSum < demoGameDT.playerSum ∨
            21 < demoGameDT.dealerSum then 1 else 0) ∧
      g'.winFlagLevel = .publicDec ∧
      g'.phase = .Completed :=
  endGame_spec demoStateDT 1 demoGameDT rfl (Or.inr rfl)

/-- C5: with balance `b` and a wager `0 < w ≤ b`, `startGame` debits the
balance to `b - w` immediately; on any completed game owned by the caller
with plain wager `w`, `payoutWinner` with `playerWon = true` credits exactly
`2 * w` (so a balance of `b - w` becomes `b + w`) and with
`playerWon = false` leaves the balance unchanged. -/
theorem chips_flow (s : BJState) (sender : Nat) (encDeck : Fin 52 → Nat)
    (encBet w : Nat) (hw : 0 < w) (hb : w ≤ s.chipBalances sender) :
    (∃ s', startGame s sender encDeck encBet w = .ok s' ∧
      s'.chipBalances sender = s.chipBalances sender - w) ∧
    (∀ t gid g, t.games gid = some g → g.phase = Phase.Completed →
      g.player = sender → g.plainBetAmount = w →
      (∃ t', payoutWinner t sender gid true = .ok t' ∧
        t'.chipBalances sender = t.chipBalances sender + 2 * w) ∧
      (∃ t', payoutWinner t sender gid false = .ok t' ∧
        t'.chipBalances sender = t.chipBalances sender)) ∧
    s.chipBalances sender - w + 2 * w = s.chipBalances sender + w := by
  refine ⟨?_, ?_, by omega⟩
  · unfold startGame
    rw [if_neg (by omega), if_neg (by omega)]
    refine ⟨_, rfl, ?_⟩
    simp
  · intro t gid g hg hph hown hbet
    constructor
    · unfold payoutWinner
      rw [hg]
      simp only [hph, hown, ne_eq, not_true_eq_false, if_false, if_true]
      refine ⟨_, rfl, ?_⟩
      simp [hbet]
      omega
    · unfold payoutWinner
      rw [hg]
      simp only [hph, hown, ne_eq, not_true_eq_false, if_false,
        Bool.false_eq_true]
      exact ⟨_, rfl, rfl⟩

/-- Witness for C5 on `demoStateDT` with wager 100 against balance 1000. -/
theorem chips_flow_witness :
    (∃ s', startGame demoStateDT 7 demoDeck 100 100 = .ok s' ∧
      s'.chipBalances 7 = demoStateDT.chipBalances 7 - 100) ∧
    (∀ t gid g, t.games gid = some g → g.phase = Phase.Completed →
      g.player = 7 → g.plainBetAmount = 100 →
      (∃ t', payoutWinner t 7 gid true = .ok t' ∧
        t'.chipBalances 7 = t.chipBalances 7 + 2 * 100) ∧
      (∃ t', payoutWinner t 7 gid false = .ok t' ∧
        t'.chipBalances 7 = t.chipBalances 7)) ∧
    demoStateDT.chipBalances 7 - 100 + 2 * 100 =
      demoStateDT.chipBalances 7 + 100 :=
  chips_flow demoStateDT 7 demoDeck 100 100 (by decide) (by decide)

/-- C9: precondition failures revert with no state change (an `error`
result is exactly a reverted transaction in this embedding), and the revert
reasons separate phase mismatch ("wrong phase" / "invalid state") from
ownership ("invalid player" / "no game") from deck exhaustion ("deck
empty") from balance problems ("Insufficient CHIP balance" / "Bet
required"); in particular `hit` by the owner in a wrong phase reports
exactly "wrong phase". -/
theorem revert_reasons_spec (s : BJState) (sender : Nat)
    (gid1 gid2 gid3 : Nat) (g1 g3 : Game) (encDeck : Fin 52 → Nat)
    (encBet w : Nat)
    (hg1 : s.games gid1 = some g1) (hown1 : g1.player = sender)
    (hph1 : g1.phase ≠ Phase.PlayerTurn)
    (hnone : s.games gid2 = none)
    (hg3 : s.games gid3 = some g3) (hown3 : g3.player = sender)
    (hph3 : g3.phase = Phase.PlayerTurn) (hdk3 : ¬ g3.deckIndex < 52)
    (hbal : s.chipBalances sender < w) (hw : 0 < w) :
    hit s sender gid1 = .error "wrong phase" ∧
    hit s sender gid2 = .error "invalid player" ∧
    hit s sender gid3 = .error "deck empty" ∧
    startGame s sender encDeck encBet w =
      .error "Insufficient CHIP balance" ∧
    startGame s sender encDeck encBet 0 = .error "Bet required" ∧
    dealerHit s gid2 = .error "invalid state" ∧
    payoutWinner s sender gid2 true = .error "no game" ∧
    (["wrong phase", "invalid player", "deck empty",
      "Insufficient CHIP balance"] : List String).Nodup := by
  refine ⟨?_, ?_, ?_, ?_, ?_, ?_, ?_, by decide⟩
  · unfold hit
    rw [hg1]
    simp only [hown1, ne_eq, not_true_eq_false, if_false, if_pos hph1]
  · unfold hit
    rw [hnone]
  · unfold hit
    rw [hg3]
    simp only [hown3, hph3, ne_eq, not_true_eq_false, if_false,
      dif_neg hdk3]
  · unfold startGame
    rw [if_neg (by omega), if_pos hbal]
  · unfold startGame
    rw [if_pos rfl]
  · unfold dealerHit
    rw [hnone]
  · unfold payoutWinner
    rw [hnone]

/-- Witness for C9 on `demoStateErr`. -/
theorem revert_reasons_spec_witness :
    hit demoStateErr 7 1 = .error "wrong phase" ∧
    hit demoStateErr 7 2 = .error "invalid player" ∧
    hit demoStateErr 7 4 = .error "deck empty" ∧
    startGame demoStateErr 7 demoDeck 5 5 =
      .error "Insufficient CHIP balance" ∧
    startGame demoStateErr 7 demoDeck 5 0 = .error "Bet required" ∧
    dealerHit demoStateErr 2 = .error "invalid state" ∧
    payoutWinner demoStateErr 7 2 true = .error "no game" ∧
    (["wrong phase", "invalid player", "deck empty",
      "Insufficient CHIP balance"] : List String).Nodup :=
  revert_reasons_spec demoStateErr 7 1 2 4 demoGameDone demoGameFull
    demoDeck 5 5 rfl rfl (by decide) rfl rfl rfl rfl (by decide)
    (by decide) (by decide)

theorem hit_ok_shape (s : BJState) (sender gid : Nat) (s' : BJState)
    (h : hit s sender gid = .ok s') :
    ∃ g, s.games gid = some g ∧ g.player = sender ∧
      g.phase = Phase.PlayerTurn ∧
      ∃ hdk : g.deckIndex < 52, s' = setGame s gid (hitGame g hdk) := by
  unfold hit at h
  cases hm : s.games gid with
  | none =>
    rw [hm] at h
    exact Except.noConfusion h
  | some g =>
    rw [hm] at h
    simp only [] at h
    split at h
    · exact Except.noConfusion h
    · split at h
      · exact Except.noConfusion h
      · split at h
        · rename_i h1 h2 h3
          exact ⟨g, rfl, not_ne_iff.mp h1, not_ne_iff.mp h2, h3,
            (Except.ok.inj h).symm⟩
        · exact Except.noConfusion h

theorem stand_ok_shape (s : BJState) (sender gid : Nat) (s' : BJState)
    (h : stand s sender gid = .ok s') :
    ∃ g, s.games gid = some g ∧ g.player = sender ∧
      g.phase = Phase.PlayerTurn ∧ s' = setGame s gid (standGame g) := by
  unfold stand at h
  cases hm : s.games gid with
  | none =>
    rw [hm] at h
    exact Except.noConfusion h
  | some g =>
    rw [hm] at h
    simp only [] at h
    split at h
    · exact Except.noConfusion h
    · split at h
      · exact Except.noConfusion h
      · rename_i h1 h2
        exact ⟨g, rfl, not_ne_iff.mp h1, not_ne_iff.mp h2,
          (Except.ok.inj h).symm⟩

theorem dealerHit_ok_shape (s : BJState) (gid : Nat) (s' : BJState)
    (h : dealerHit s gid = .ok s') :
    ∃ g, s.games gid = some g ∧ g.phase = Phase.DealerTurn ∧
      ∃ hdk : g.deckIndex < 52, s' = setGame s gid (dealerHitGame g hdk) := by
  unfold dealerHit at h
  cases hm : s.games gid with
  | none =>
    rw [hm] at h
    exact Except.noConfusion h
  | some g =>
    rw [hm] at h
    simp only [] at h
    split at h
    · exact Except.noConfusion h
    · split at h
      · rename_i h1 h2
        exact ⟨g, rfl, not_ne_iff.mp h1, h2, (Except.ok.inj h).symm⟩
      · exact Except.noConfusion h

theorem setBust_ok_shape (s : BJState) (sender gid : Nat) (s' : BJState)
    (h : setBustPhase s sender gid = .ok s') :
    ∃ g, s.games gid = some g ∧ g.player = sender ∧
      g.phase = Phase.PlayerTurn ∧ s' = setGame s gid (bustGame g) := by
  unfold setBustPhase at h
  cases hm : s.games gid with
  | none =>
    rw [hm] at h
    exact Except.noConfusion h
  | some g =>
    rw [hm] at h
    simp only [] at h
    split at h
    · exact Except.noConfusion h
    · split at h
      · exact Except.noConfusion h
      · rename_i h1 h2
        exact ⟨g, rfl, not_ne_iff.mp h1, not_ne_iff.mp h2,
          (Except.ok.inj h).symm⟩

theorem endGame_ok_shape (s : BJState) (gid : Nat) (s' : BJState)
    (h : endGame s gid = .ok s') :
    ∃ g, s.games gid = some g ∧
      (g.phase = Phase.GameEnding ∨ g.phase = Phase.DealerTurn) ∧
      s' = setGame s gid (settleGame g) := by
  unfold endGame at h
  cases hm : s.games gid with
  | none =>
    rw [hm] at h
    exact Except.noConfusion h
  | some g =>
    rw [hm] at h
    simp only [] at h
    split at h
    · rename_i h1
      exact ⟨g, rfl, h1, (Except.ok.inj h).symm⟩
    · exact Except.noConfusion h

theorem payout_ok_shape (s : BJState) (sender gid : Nat) (w : Bool)
    (s' : BJState) (h : payoutWinner s sender gid w = .ok s') :
    s'.games = s.games ∧ s'.nextGameId = s.nextGameId := by
  unfold payoutWinner at h
  cases hm : s.games gid with
  | none =>
    rw [hm] at h
    exact Except.noConfusion h
  | some g =>
    rw [hm] at h
    simp only [] at h
    split at h
    · exact Except.noConfusion h
    · split at h
      · exact Except.noConfusion h
      · split at h
        · obtain rfl := Except.ok.inj h
          exact ⟨rfl, rfl⟩
        · obtain rfl := Except.ok.inj h
          exact ⟨rfl, rfl⟩

theorem buy_ok_shape (s : BJState) (sender value : Nat) (s' : BJState)
    (h : buyChips s sender value = .ok s') :
    s'.games = s.games ∧ s'.nextGameId = s.nextGameId := by
  unfold buyChips at h
  split at h
  · exact Except.noConfusion h
  · simp only [] at h
    split at h
    · exact Except.noConfusion h
    · obtain rfl := Except.ok.inj h
      exact ⟨rfl, rfl⟩

theorem sell_ok_shape (s : BJState) (sender chipAmount : Nat) (s' : BJState)
    (h : sellChips s sender chipAmount = .ok s') :
    s'.games = s.games ∧ s'.nextGameId = s.nextGameId := by
  unfold sellChips at h
  split at h
  · exact Except.noConfusion h
  · split at h
    · exact Except.noConfusion h
    · simp only [] at h
      split at h
      · exact Except.noConfusion h
      · split at h
        · exact Except.noConfusion h
        · obtain rfl := Except.ok.inj h
          exact ⟨rfl, rfl⟩

theorem start_ok_shape (s : BJState) (sender : Nat) (encDeck : Fin 52 → Nat)
    (encryptedBet plainBet : Nat) (s' : BJState)
    (h : startGame s sender encDeck encryptedBet plainBet = .ok s') :
    s'.nextGameId = s.nextGameId + 1 ∧
    s'.games = fun id =>
      if id = s.nextGameId then
        some (startGameRecord sender encDeck encryptedBet plainBet)
      else s.games id := by
  unfold startGame at h
  split at h
  · exact Except.noConfusion h
  · split at h
    · exact Except.noConfusion h
    · obtain rfl := Except.ok.inj h
      exact ⟨rfl, rfl⟩

theorem W32_eq : W32 = 4294967296 := by norm_num [W32]

theorem getBlackjackBaseValue_le (card : Nat) (h : card < 256) :
    getBlackjackBaseValue card ≤ 255 := by
  unfold getBlackjackBaseValue
  split
  · omega
  · rw [W32_eq]
    omega

theorem setGame_games (s : BJState) (gid : Nat) (g : Game) (id : Nat) :
    (setGame s gid g).games id = if id = gid then some g else s.games id :=
  rfl

theorem grant_ne (f : Fin 52 → Level) (i : Fin 52) (l : Level) (j : Fin 52)
    (hj : j ≠ i) : grant f i l j = f j := by
  simp [grant, hj]

theorem hitGame_deckIndex (g : Game) (h : g.deckIndex < 52) :
    (hitGame g h).deckIndex = (g.deckIndex + 1) % 256 := rfl

theorem hitGame_playerBaseSum (g : Game) (h : g.deckIndex < 52) :
    (hitGame g h).playerBaseSum =
      (g.playerBaseSum +
        getBlackjackBaseValue (g.deck ⟨g.deckIndex, h⟩)) % W32 := rfl

theorem hitGame_playerSum_calc (g : Game) (h : g.deckIndex < 52) :
    (hitGame g h).playerSum =
      calculateBlackjackSum (hitGame g h).playerBaseSum
        (hitGame g h).playerAceCount := rfl

theorem hitGame_bustFlag (g : Game) (h : g.deckIndex < 52) :
    (hitGame g h).bustFlag =
      if 21 < (hitGame g h).playerSum then 1 else 0 := rfl

theorem dealerHitGame_deckIndex (g : Game) (h : g.deckIndex < 52) :
    (dealerHitGame g h).deckIndex = (g.deckIndex + 1) % 256 := rfl

theorem startGameRecord_deckIndex (sender : Nat) (encDeck : Fin 52 → Nat)
    (encryptedBet plainBet : Nat) :
    (startGameRecord sender encDeck encryptedBet plainBet).deckIndex = 4 :=
  rfl

theorem startGameRecord_bustFlag (sender : Nat) (encDeck : Fin 52 → Nat)
    (encryptedBet plainBet : Nat) :
    (startGameRecord sender encDeck encryptedBet plainBet).bustFlag = 0 :=
  rfl

theorem raiseLevel_engineOnly (a : Level) :
    raiseLevel a .engineOnly = a := by
  cases a <;> rfl

theorem startGameRecord_playerBaseSum (sender : Nat)
    (encDeck : Fin 52 → Nat) (encryptedBet plainBet : Nat) :
    (startGameRecord sender encDeck encryptedBet plainBet).playerBaseSum =
      ((0 + getBlackjackBaseValue (encDeck ⟨0, by decide⟩ % 256)) % W32
        + getBlackjackBaseValue (encDeck ⟨1, by decide⟩ % 256)) % W32 := rfl

theorem GameInv_mono (n m gid : Nat) (g : Game) (hnm : n ≤ m)
    (hg : GameInv n gid g) : GameInv m gid g := by
  obtain ⟨h1, hrest⟩ := hg
  exact ⟨by omega, hrest⟩

theorem startGameRecord_inv (sender : Nat) (encDeck : Fin 52 → Nat)
    (encryptedBet plainBet n : Nat) :
    GameInv (n + 1) n (startGameRecord sender encDeck encryptedBet plainBet)
    := by
  have hv1 := getBlackjackBaseValue_le (encDeck ⟨0, by decide⟩ % 256)
    (Nat.mod_lt _ (by omega))
  have hv2 := getBlackjackBaseValue_le (encDeck ⟨1, by decide⟩ % 256)
    (Nat.mod_lt _ (by omega))
  refine ⟨by omega, ?_, ?_, ?_, ?_, rfl, ?_, ?_⟩
  · rw [startGameRecord_deckIndex]
  · rw [startGameRecord_deckIndex]
    omega
  · intro i
    exact Nat.mod_lt _ (by omega)
  · rw [startGameRecord_playerBaseSum, W32_eq, startGameRecord_deckIndex]
    omega
  · intro hx
    rw [startGameRecord_bustFlag] at hx
    omega
  · intro _
    rfl

theorem hitGame_inv (n gid : Nat) (g : Game) (hdk : g.deckIndex < 52)
    (hGI : GameInv n gid g) : GameInv n gid (hitGame g hdk) := by
  obtain ⟨h1, h4, h52, hdeck, hpb, hsum, hbust, hhole⟩ := hGI
  have hv := getBlackjackBaseValue_le (g.deck ⟨g.deckIndex, hdk⟩) (hdeck _)
  have hidx : (hitGame g hdk).deckIndex = g.deckIndex + 1 := by
    rw [hitGame_deckIndex]
    omega
  have hpb' : (hitGame g hdk).playerBaseSum =
      g.playerBaseSum + getBlackjackBaseValue (g.deck ⟨g.deckIndex, hdk⟩)
      := by
    rw [hitGame_playerBaseSum, W32_eq]
    omega
  refine ⟨h1, ?_, ?_, fun i => hdeck i, ?_,
    hitGame_playerSum_calc g hdk, ?_, ?_⟩
  · rw [hidx]
    omega
  · rw [hidx]
    omega
  · rw [hpb', hidx]
    omega
  · rw [hitGame_bustFlag]
    split
    · rename_i hc
      exact fun _ => hc
    · intro hx
      exact absurd hx (by omega)
  · intro hphase
    show grant g.deckLevel ⟨g.deckIndex, hdk⟩ Level.ownerDec holeIdx =
      Level.engineOnly
    rw [grant_ne _ _ _ _ (by
      intro hcontra
      have := congrArg Fin.val hcontra
      simp [holeIdx] at this
      omega)]
    exact hhole hphase

theorem standGame_inv (n gid : Nat) (g : Game)
    (hGI : GameInv n gid g) (hph : g.phase = Phase.PlayerTurn) :
    GameInv n gid (standGame g) := by
  obtain ⟨h1, h4, h52, hdeck, hpb, hsum, hbust, hhole⟩ := hGI
  refine ⟨h1, h4, h52, hdeck, hpb, hsum, hbust, ?_⟩
  intro _
  have hold : g.deckLevel holeIdx = Level.engineOnly :=
    hhole (by simp [hph])
  show raiseLevel (g.deckLevel holeIdx) Level.engineOnly = Level.engineOnly
  rw [hold, raiseLevel_engineOnly]

theorem dealerHitGame_inv (n gid : Nat) (g : Game) (hdk : g.deckIndex < 52)
    (hGI : GameInv n gid g) (hph : g.phase = Phase.DealerTurn) :
    GameInv n gid (dealerHitGame g hdk) := by
  obtain ⟨h1, h4, h52, hdeck, hpb, hsum, hbust, hhole⟩ := hGI
  have hidx : (dealerHitGame g hdk).deckIndex = g.deckIndex + 1 := by
    rw [dealerHitGame_deckIndex]
    omega
  refine ⟨h1, ?_, ?_, fun i => hdeck i, ?_, hsum, hbust, ?_⟩
  · rw [hidx]
    omega
  · rw [hidx]
    omega
  · rw [hidx]
    show g.playerBaseSum ≤ 255 * (g.deckIndex + 1)
    omega
  · intro _
    show grant g.deckLevel ⟨g.deckIndex, hdk⟩ Level.publicDec holeIdx =
      Level.engineOnly
    rw [grant_ne _ _ _ _ (by
      intro hcontra
      have := congrArg Fin.val hcontra
      simp [holeIdx] at this
      omega)]
    exact hhole (by simp [hph])

theorem bustGame_inv (n gid : Nat) (g : Game)
    (hGI : GameInv n gid g) (hph : g.phase = Phase.PlayerTurn) :
    GameInv n gid (bustGame g) := by
  obtain ⟨h1, h4, h52, hdeck, hpb, hsum, hbust, hhole⟩ := hGI
  refine ⟨h1, h4, h52, hdeck, hpb, hsum, hbust, ?_⟩
  intro _
  exact hhole (by simp [hph])

theorem settleGame_inv (n gid : Nat) (g : Game)
    (hGI : GameInv n gid g) : GameInv n gid (settleGame g) := by
  obtain ⟨h1, h4, h52, hdeck, hpb, hsum, hbust, hhole⟩ := hGI
  refine ⟨h1, h4, h52, hdeck, hpb, hsum, hbust, ?_⟩
  intro hcontra
  exact absurd rfl hcontra

theorem inv_preserved (s : BJState) (op : Op) (s' : BJState)
    (hInv : Inv s) (h : applyOp s op = .ok s') : Inv s' := by
  obtain ⟨hn, hInvG⟩ := hInv
  cases op with
  | start sender encDeck encryptedBet plainBet =>
    obtain ⟨hnext, hgames⟩ := start_ok_shape _ _ _ _ _ _ h
    refine ⟨by rw [hnext]; omega, ?_⟩
    intro gid g hm
    rw [hgames] at hm
    rw [hnext]
    replace hm : (if gid = s.nextGameId then
        some (startGameRecord sender encDeck encryptedBet plainBet)
      else s.games gid) = some g := hm
    by_cases hid : gid = s.nextGameId
    · subst hid
      rw [if_pos rfl] at hm
      obtain rfl := (Option.some.inj hm).symm
      exact startGameRecord_inv sender encDeck encryptedBet plainBet
        s.nextGameId
    · rw [if_neg hid] at hm
      exact GameInv_mono _ _ _ _ (by omega) (hInvG gid g hm)
  | hitOp sender gid0 =>
    obtain ⟨g0, hm0, hown0, hph0, hdk0, rfl⟩ := hit_ok_shape _ _ _ _ h
    refine ⟨hn, ?_⟩
    intro gid g hm
    rw [setGame_games] at hm
    by_cases hid : gid = gid0
    · subst hid
      rw [if_pos rfl] at hm
      obtain rfl := (Option.some.inj hm).symm
      exact hitGame_inv _ _ _ hdk0 (hInvG gid g0 hm0)
    · rw [if_neg hid] at hm
      exact hInvG gid g hm
  | standOp sender gid0 =>
    obtain ⟨g0, hm0, hown0, hph0, rfl⟩ := stand_ok_shape _ _ _ _ h
    refine ⟨hn, ?_⟩
    intro gid g hm
    rw [setGame_games] at hm
    by_cases hid : gid = gid0
    · subst hid
      rw [if_pos rfl] at hm
      obtain rfl := (Option.some.inj hm).symm
      exact standGame_inv _ _ _ (hInvG gid g0 hm0) hph0
    · rw [if_neg hid] at hm
      exact hInvG gid g hm
  | dealerHitOp gid0 =>
    obtain ⟨g0, hm0, hph0, hdk0, rfl⟩ := dealerHit_ok_shape _ _ _ h
    refine ⟨hn, ?_⟩
    intro gid g hm
    rw [setGame_games] at hm
    by_cases hid : gid = gid0
    · subst hid
      rw [if_pos rfl] at hm
      obtain rfl := (Option.some.inj hm).symm
      exact dealerHitGame_inv _ _ _ hdk0 (hInvG gid g0 hm0) hph0
    · rw [if_neg hid] at hm
      exact hInvG gid g hm
  | setBustOp sender gid0 =>
    obtain ⟨g0, hm0, hown0, hph0, rfl⟩ := setBust_ok_shape _ _ _ _ h
    refine ⟨hn, ?_⟩
    intro gid g hm
    rw [setGame_games] at hm
    by_cases hid : gid = gid0
    · subst hid
      rw [if_pos rfl] at hm
      obtain rfl := (Option.some.inj hm).symm
      exact bustGame_inv _ _ _ (hInvG gid g0 hm0) hph0
    · rw [if_neg hid] at hm
      exact hInvG gid g hm
  | endGameOp gid0 =>
    obtain ⟨g0, hm0, hph0, rfl⟩ := endGame_ok_shape _ _ _ h
    refine ⟨hn, ?_⟩
    intro gid g hm
    rw [setGame_games] at hm
    by_cases hid : gid = gid0
    · subst hid
      rw [if_pos rfl] at hm
      obtain rfl := (Option.some.inj hm).symm
      exact settleGame_inv _ _ _ (hInvG gid g0 hm0)
    · rw [if_neg hid] at hm
      exact hInvG gid g hm
  | payoutOp sender gid0 playerWon =>
    obtain ⟨hgames, hnext⟩ := payout_ok_shape _ _ _ _ _ h
    refine ⟨by rw [hnext]; omega, ?_⟩
    intro gid g hm
    rw [hgames] at hm
    rw [hnext]
    exact hInvG gid g hm
  | buyOp sender value =>
    obtain ⟨hgames, hnext⟩ := buy_ok_shape _ _ _ _ h
    refine ⟨by rw [hnext]; omega, ?_⟩
    intro gid g hm
    rw [hgames] at hm
    rw [hnext]
    exact hInvG gid g hm
  | sellOp sender chipAmount =>
    obtain ⟨hgames, hnext⟩ := sell_ok_shape _ _ _ _ h
    refine ⟨by rw [hnext]; omega, ?_⟩
    intro gid g hm
    rw [hgames] at hm
    rw [hnext]
    exact hInvG gid g hm
  | receiveOp value =>
    obtain rfl := Except.ok.inj h
    exact ⟨hn, fun gid g hm => hInvG gid g hm⟩

theorem reachable_inv (s : BJState) (hs : Reachable s) : Inv s := by
  induction hs with
  | refl =>
    refine ⟨by decide, ?_⟩
    intro gid g hm
    exact Option.noConfusion hm
  | tail hab hbc ih =>
    obtain ⟨op, hop⟩ := hbc
    exact inv_preserved _ op _ ih hop

theorem settleGame_holeLevel (g : Game) :
    (settleGame g).deckLevel holeIdx = Level.publicDec := by
  show raiseLevel _ Level.publicDec = Level.publicDec
  exact raiseLevel_publicDec _

theorem Level_toNat_le_two (a : Level) : a.toNat ≤ 2 := by
  cases a <;> decide

theorem calc_gt21_iff (b a : Nat) (hb : b + 10 < W32) :
    21 < calculateBlackjackSum b a ↔ 21 < b := by
  simp only [calculateBlackjackSum, Nat.mod_eq_of_lt hb]
  split
  · rename_i hcond
    omega
  · exact Iff.rfl

/-- C7: on every reachable state, every stored game has `4 ≤ deckIndex ≤ 52`
(it is created at 4); once the cursor reaches 52 both `hit` and `dealerHit`
refuse to draw; and across every successful transaction the cursor is
non-decreasing, moves by at most one, and moves only under a `hit` or
`dealerHit` on that very game. -/
theorem deck_cursor_spec (s : BJState) (hs : Reachable s) (gid : Nat)
    (g : Game) (hg : s.games gid = some g) :
    (4 ≤ g.deckIndex ∧ g.deckIndex ≤ 52) ∧
    (∀ sender encDeck encryptedBet plainBet,
      (startGameRecord sender encDeck encryptedBet plainBet).deckIndex = 4) ∧
    (∀ sender, 52 ≤ g.deckIndex →
      (hit s sender gid).isOk = false ∧
      (dealerHit s gid).isOk = false) ∧
    (∀ op s' g', applyOp s op = .ok s' → s'.games gid = some g' →
      g.deckIndex ≤ g'.deckIndex ∧
      (g'.deckIndex = g.deckIndex ∨ g'.deckIndex = g.deckIndex + 1) ∧
      (g'.deckIndex ≠ g.deckIndex →
        (∃ sender, op = Op.hitOp sender gid) ∨ op = Op.dealerHitOp gid)) := by
  obtain ⟨hn, hInvG⟩ := reachable_inv s hs
  obtain ⟨h1, h4, h52, hdeck, hpb, hsum, hbust, hhole⟩ := hInvG gid g hg
  refine ⟨⟨h4, h52⟩, fun _ _ _ _ => rfl, ?_, ?_⟩
  · intro sender hfull
    constructor
    · cases hok : hit s sender gid with
      | error e => rfl
      | ok s1 =>
        obtain ⟨g0, hm0, _, _, hdk0, _⟩ := hit_ok_shape _ _ _ _ hok
        rw [hg] at hm0
        obtain rfl := Option.some.inj hm0
        exact absurd hdk0 (by omega)
    · cases hok : dealerHit s gid with
      | error e => rfl
      | ok s1 =>
        obtain ⟨g0, hm0, _, hdk0, _⟩ := dealerHit_ok_shape _ _ _ hok
        rw [hg] at hm0
        obtain rfl := Option.some.inj hm0
        exact absurd hdk0 (by omega)
  · intro op s' g' hop hm'
    cases op with
    | hitOp sender gid0 =>
      obtain ⟨g0, hm0, _, _, hdk0, rfl⟩ := hit_ok_shape _ _ _ _ hop
      rw [setGame_games] at hm'
      by_cases hid : gid = gid0
      · subst hid
        rw [if_pos rfl] at hm'
        rw [hg] at hm0
        obtain rfl := Option.some.inj hm0
        obtain rfl := (Option.some.inj hm').symm
        have hidx : (hitGame g hdk0).deckIndex = g.deckIndex + 1 := by
          rw [hitGame_deckIndex]
          omega
        exact ⟨by omega, Or.inr hidx, fun _ => Or.inl ⟨sender, rfl⟩⟩
      · rw [if_neg hid, hg] at hm'
        obtain rfl := (Option.some.inj hm').symm
        exact ⟨le_rfl, Or.inl rfl, fun hne => absurd rfl hne⟩
    | dealerHitOp gid0 =>
      obtain ⟨g0, hm0, _, hdk0, rfl⟩ := dealerHit_ok_shape _ _ _ hop
      rw [setGame_games] at hm'
      by_cases hid : gid = gid0
      · subst hid
        rw [if_pos rfl] at hm'
        rw [hg] at hm0
        obtain rfl := Option.some.inj hm0
        obtain rfl := (Option.some.inj hm').symm
        have hidx : (dealerHitGame g hdk0).deckIndex = g.deckIndex + 1 := by
          rw [dealerHitGame_deckIndex]
          omega
        exact ⟨by omega, Or.inr hidx, fun _ => Or.inr rfl⟩
      · rw [if_neg hid, hg] at hm'
        obtain rfl := (Option.some.inj hm').symm
        exact ⟨le_rfl, Or.inl rfl, fun hne => absurd rfl hne⟩
    | standOp sender gid0 =>
      obtain ⟨g0, hm0, _, _, rfl⟩ := stand_ok_shape _ _ _ _ hop
      rw [setGame_games] at hm'
      by_cases hid : gid = gid0
      · subst hid
        rw [if_pos rfl] at hm'
        rw [hg] at hm0
        obtain rfl := Option.some.inj hm0
        obtain rfl := (Option.some.inj hm').symm
        exact ⟨le_rfl, Or.inl rfl, fun hne => absurd rfl hne⟩
      · rw [if_neg hid, hg] at hm'
        obtain rfl := (Option.some.inj hm').symm
        exact ⟨le_rfl, Or.inl rfl, fun hne => absurd rfl hne⟩
    | setBustOp sender gid0 =>
      obtain ⟨g0, hm0, _, _, rfl⟩ := setBust_ok_shape _ _ _ _ hop
      rw [setGame_games] at hm'
      by_cases hid : gid = gid0
      · subst hid
        rw [if_pos rfl] at hm'
        rw [hg] at hm0
        obtain rfl := Option.some.inj hm0
        obtain rfl := (Option.some.inj hm').symm
        exact ⟨le_rfl, Or.inl rfl, fun hne => absurd rfl hne⟩
      · rw [if_neg hid, hg] at hm'
        obtain rfl := (Option.some.inj hm').symm
        exact ⟨le_rfl, Or.inl rfl, fun hne => absurd rfl hne⟩
    | endGameOp gid0 =>
      obtain ⟨g0, hm0, _, rfl⟩ := endGame_ok_shape _ _ _ hop
      rw [setGame_games] at hm'
      by_cases hid : gid = gid0
      · subst hid
        rw [if_pos rfl] at hm'
        rw [hg] at hm0
        obtain rfl := Option.some.inj hm0
        obtain rfl := (Option.some.inj hm').symm
        exact ⟨le_rfl, Or.inl rfl, fun hne => absurd rfl hne⟩
      · rw [if_neg hid, hg] at hm'
        obtain rfl := (Option.some.inj hm').symm
        exact ⟨le_rfl, Or.inl rfl, fun hne => absurd rfl hne⟩
    | start sender encDeck encryptedBet plainBet =>
      obtain ⟨hnext, hgames⟩ := start_ok_shape _ _ _ _ _ _ hop
      rw [hgames] at hm'
      replace hm' : (if gid = s.nextGameId then
          some (startGameRecord sender encDeck encryptedBet plainBet)
        else s.games gid) = some g' := hm'
      rw [if_neg (by omega), hg] at hm'
      obtain rfl := (Option.some.inj hm').symm
      exact ⟨le_rfl, Or.inl rfl, fun hne => absurd rfl hne⟩
    | payoutOp sender gid0 w =>
      obtain ⟨hgames, _⟩ := payout_ok_shape _ _ _ _ _ hop
      rw [hgames, hg] at hm'
      obtain rfl := (Option.some.inj hm').symm
      exact ⟨le_rfl, Or.inl rfl, fun hne => absurd rfl hne⟩
    | buyOp sender value =>
      obtain ⟨hgames, _⟩ := buy_ok_shape _ _ _ _ hop
      rw [hgames, hg] at hm'
      obtain rfl := (Option.some.inj hm').symm
      exact ⟨le_rfl, Or.inl rfl, fun hne => absurd rfl hne⟩
    | sellOp sender chipAmount =>
      obtain ⟨hgames, _⟩ := sell_ok_shape _ _ _ _ hop
      rw [hgames, hg] at hm'
      obtain rfl := (Option.some.inj hm').symm
      exact ⟨le_rfl, Or.inl rfl, fun hne => absurd rfl hne⟩
    | receiveOp value =>
      obtain rfl := Except.ok.inj hop
      replace hm' : s.games gid = some g' := hm'
      rw [hg] at hm'
      obtain rfl := (Option.some.inj hm').symm
      exact ⟨le_rfl, Or.inl rfl, fun hne => absurd rfl hne⟩

/-- C8: on every reachable state, a game whose phase is `Completed` rejects
`hit`, `stand`, `dealerHit` and `setBustPhase` (each reverts, leaving the
hand untouched), and no successful transaction whatsoever moves its phase
away from `Completed`: the hand is permanently read-only. -/
theorem completed_read_only (s : BJState) (hs : Reachable s) (gid : Nat)
    (g : Game) (hg : s.games gid = some g)
    (hph : g.phase = Phase.Completed) :
    (∀ sender, ∃ e, hit s sender gid = .error e) ∧
    (∀ sender, ∃ e, stand s sender gid = .error e) ∧
    (∃ e, dealerHit s gid = .error e) ∧
    (∀ sender, ∃ e, setBustPhase s sender gid = .error e) ∧
    (∀ op s' g', applyOp s op = .ok s' → s'.games gid = some g' →
      g'.phase = Phase.Completed) := by
  obtain ⟨hn, hInvG⟩ := reachable_inv s hs
  obtain ⟨h1, _⟩ := hInvG gid g hg
  refine ⟨?_, ?_, ?_, ?_, ?_⟩
  · intro sender
    cases hok : hit s sender gid with
    | error e => exact ⟨e, rfl⟩
    | ok s1 =>
      obtain ⟨g0, hm0, _, hph0, _, _⟩ := hit_ok_shape _ _ _ _ hok
      rw [hg] at hm0
      obtain rfl := Option.some.inj hm0
      rw [hph] at hph0
      exact Phase.noConfusion hph0
  · intro sender
    cases hok : stand s sender gid with
    | error e => exact ⟨e, rfl⟩
    | ok s1 =>
      obtain ⟨g0, hm0, _, hph0, _⟩ := stand_ok_shape _ _ _ _ hok
      rw [hg] at hm0
      obtain rfl := Option.some.inj hm0
      rw [hph] at hph0
      exact Phase.noConfusion hph0
  · cases hok : dealerHit s gid with
    | error e => exact ⟨e, rfl⟩
    | ok s1 =>
      obtain ⟨g0, hm0, hph0, _, _⟩ := dealerHit_ok_shape _ _ _ hok
      rw [hg] at hm0
      obtain rfl := Option.some.inj hm0
      rw [hph] at hph0
      exact Phase.noConfusion hph0
  · intro sender
    cases hok : setBustPhase s sender gid with
    | error e => exact ⟨e, rfl⟩
    | ok s1 =>
      obtain ⟨g0, hm0, _, hph0, _⟩ := setBust_ok_shape _ _ _ _ hok
      rw [hg] at hm0
      obtain rfl := Option.some.inj hm0
      rw [hph] at hph0
      exact Phase.noConfusion hph0
  · intro op s' g' hop hm'
    cases op with
    | hitOp sender gid0 =>
      obtain ⟨g0, hm0, _, hph0, _, rfl⟩ := hit_ok_shape _ _ _ _ hop
      rw [setGame_games] at hm'
      by_cases hid : gid = gid0
      · subst hid
        rw [hg] at hm0
        obtain rfl := Option.some.inj hm0
        rw [hph] at hph0
        exact Phase.noConfusion hph0
      · rw [if_neg hid, hg] at hm'
        obtain rfl := (Option.some.inj hm').symm
        exact hph
    | standOp sender gid0 =>
      obtain ⟨g0, hm0, _, hph0, rfl⟩ := stand_ok_shape _ _ _ _ hop
      rw [setGame_games] at hm'
      by_cases hid : gid = gid0
      · subst hid
        rw [hg] at hm0
        obtain rfl := Option.some.inj hm0
        rw [hph] at hph0
        exact Phase.noConfusion hph0
      · rw [if_neg hid, hg] at hm'
        obtain rfl := (Option.some.inj hm').symm
        exact hph
    | dealerHitOp gid0 =>
      obtain ⟨g0, hm0, hph0, _, rfl⟩ := dealerHit_ok_shape _ _ _ hop
      rw [setGame_games] at hm'
      by_cases hid : gid = gid0
      · subst hid
        rw [hg] at hm0
        obtain rfl := Option.some.inj hm0
        rw [hph] at hph0
        exact Phase.noConfusion hph0
      · rw [if_neg hid, hg] at hm'
        obtain rfl := (Option.some.inj hm').symm
        exact hph
    | setBustOp sender gid0 =>
      obtain ⟨g0, hm0, _, hph0, rfl⟩ := setBust_ok_shape _ _ _ _ hop
      rw [setGame_games] at hm'
      by_cases hid : gid = gid0
      · subst hid
        rw [hg] at hm0
        obtain rfl := Option.some.inj hm0
        rw [hph] at hph0
        exact Phase.noConfusion hph0
      · rw [if_neg hid, hg] at hm'
        obtain rfl := (Option.some.inj hm').symm
        exact hph
    | endGameOp gid0 =>
      obtain ⟨g0, hm0, hph0, rfl⟩ := endGame_ok_shape _ _ _ hop
      rw [setGame_games] at hm'
      by_cases hid : gid = gid0
      · subst hid
        rw [hg] at hm0
        obtain rfl := Option.some.inj hm0
        rw [hph] at hph0
        rcases hph0 with hx | hx <;> exact Phase.noConfusion hx
      · rw [if_neg hid, hg] at hm'
        obtain rfl := (Option.some.inj hm').symm
        exact hph
    | start sender encDeck encryptedBet plainBet =>
      obtain ⟨hnext, hgames⟩ := start_ok_shape _ _ _ _ _ _ hop
      rw [hgames] at hm'
      replace hm' : (if gid = s.nextGameId then
          some (startGameRecord sender encDeck encryptedBet plainBet)
        else s.games gid) = some g' := hm'
      rw [if_neg (by omega), hg] at hm'
      obtain rfl := (Option.some.inj hm').symm
      exact hph
    | payoutOp sender gid0 w =>
      obtain ⟨hgames, _⟩ := payout_ok_shape _ _ _ _ _ hop
      rw [hgames, hg] at hm'
      obtain rfl := (Option.some.inj hm').symm
      exact hph
    | buyOp sender value =>
      obtain ⟨hgames, _⟩ := buy_ok_shape _ _ _ _ hop
      rw [hgames, hg] at hm'
      obtain rfl := (Option.some.inj hm').symm
      exact hph
    | sellOp sender chipAmount =>
      obtain ⟨hgames, _⟩ := sell_ok_shape _ _ _ _ hop
      rw [hgames, hg] at hm'
      obtain rfl := (Option.some.inj hm').symm
      exact hph
    | receiveOp value =>
      obtain rfl := Except.ok.inj hop
      replace hm' : s.games gid = some g' := hm'
      rw [hg] at hm'
      obtain rfl := (Option.some.inj hm').symm
      exact hph

/-- C3: on every reachable state, as long as a game is not `Completed` its
dealer hole card (deck slot 3) is engine-only (so the owner cannot decrypt
it); every successful transaction other than an `endGame` leaves the hole
card's disclosure level exactly unchanged; and across every successful
transaction the level only moves forward, never backward. -/
theorem hole_card_privacy (s : BJState) (hs : Reachable s) (gid : Nat)
    (g : Game) (hg : s.games gid = some g) :
    (g.phase ≠ Phase.Completed →
      g.deckLevel holeIdx = Level.engineOnly) ∧
    (∀ op s' g', applyOp s op = .ok s' → s'.games gid = some g' →
      ((∀ gid0, op ≠ Op.endGameOp gid0) →
        g'.deckLevel holeIdx = g.deckLevel holeIdx) ∧
      (g.deckLevel holeIdx).toNat ≤ (g'.deckLevel holeIdx).toNat) := by
  obtain ⟨hn, hInvG⟩ := reachable_inv s hs
  obtain ⟨h1, h4, h52, hdeck, hpb, hsum, hbust, hhole⟩ := hInvG gid g hg
  refine ⟨hhole, ?_⟩
  intro op s' g' hop hm'
  cases op with
  | hitOp sender gid0 =>
    obtain ⟨g0, hm0, _, _, hdk0, rfl⟩ := hit_ok_shape _ _ _ _ hop
    rw [setGame_games] at hm'
    by_cases hid : gid = gid0
    · subst hid
      rw [if_pos rfl] at hm'
      rw [hg] at hm0
      obtain rfl := Option.some.inj hm0
      obtain rfl := (Option.some.inj hm').symm
      have heq : (hitGame g hdk0).deckLevel holeIdx = g.deckLevel holeIdx := by
        show grant g.deckLevel ⟨g.deckIndex, hdk0⟩ Level.ownerDec holeIdx = _
        exact grant_ne _ _ _ _ (by
          intro hcontra
          have := congrArg Fin.val hcontra
          simp [holeIdx] at this
          omega)
      exact ⟨fun _ => heq, by rw [heq]⟩
    · rw [if_neg hid, hg] at hm'
      obtain rfl := (Option.some.inj hm').symm
      exact ⟨fun _ => rfl, le_rfl⟩
  | dealerHitOp gid0 =>
    obtain ⟨g0, hm0, _, hdk0, rfl⟩ := dealerHit_ok_shape _ _ _ hop
    rw [setGame_games] at hm'
    by_cases hid : gid = gid0
    · subst hid
      rw [if_pos rfl] at hm'
      rw [hg] at hm0
      obtain rfl := Option.some.inj hm0
      obtain rfl := (Option.some.inj hm').symm
      have heq : (dealerHitGame g hdk0).deckLevel holeIdx =
          g.deckLevel holeIdx := by
        show grant g.deckLevel ⟨g.deckIndex, hdk0⟩ Level.publicDec holeIdx = _
        exact grant_ne _ _ _ _ (by
          intro hcontra
          have := congrArg Fin.val hcontra
          simp [holeIdx] at this
          omega)
      exact ⟨fun _ => heq, by rw [heq]⟩
    · rw [if_neg hid, hg] at hm'
      obtain rfl := (Option.some.inj hm').symm
      exact ⟨fun _ => rfl, le_rfl⟩
  | standOp sender gid0 =>
    obtain ⟨g0, hm0, _, _, rfl⟩ := stand_ok_shape _ _ _ _ hop
    rw [setGame_games] at hm'
    by_cases hid : gid = gid0
    · subst hid
      rw [if_pos rfl] at hm'
      rw [hg] at hm0
      obtain rfl := Option.some.inj hm0
      obtain rfl := (Option.some.inj hm').symm
      have heq : (standGame g).deckLevel holeIdx = g.deckLevel holeIdx := by
        show raiseLevel (g.deckLevel holeIdx) Level.engineOnly = _
        exact raiseLevel_engineOnly _
      exact ⟨fun _ => heq, by rw [heq]⟩
    · rw [if_neg hid, hg] at hm'
      obtain rfl := (Option.some.inj hm').symm
      exact ⟨fun _ => rfl, le_rfl⟩
  | setBustOp sender gid0 =>
    obtain ⟨g0, hm0, _, _, rfl⟩ := setBust_ok_shape _ _ _ _ hop
    rw [setGame_games] at hm'
    by_cases hid : gid = gid0
    · subst hid
      rw [if_pos rfl] at hm'
      rw [hg] at hm0
      obtain rfl := Option.some.inj hm0
      obtain rfl := (Option.some.inj hm').symm
      exact ⟨fun _ => rfl, le_rfl⟩
    · rw [if_neg hid, hg] at hm'
      obtain rfl := (Option.some.inj hm').symm
      exact ⟨fun _ => rfl, le_rfl⟩
  | endGameOp gid0 =>
    obtain ⟨g0, hm0, _, rfl⟩ := endGame_ok_shape _ _ _ hop
    rw [setGame_games] at hm'
    by_cases hid : gid = gid0
    · subst hid
      rw [if_pos rfl] at hm'
      rw [hg] at hm0
      obtain rfl := Option.some.inj hm0
      obtain rfl := (Option.some.inj hm').symm
      refine ⟨fun hne => absurd rfl (hne gid), ?_⟩
      rw [settleGame_holeLevel]
      exact Level_toNat_le_two _
    · rw [if_neg hid, hg] at hm'
      obtain rfl := (Option.some.inj hm').symm
      exact ⟨fun _ => rfl, le_rfl⟩
  | start sender encDeck encryptedBet plainBet =>
    obtain ⟨hnext, hgames⟩ := start_ok_shape _ _ _ _ _ _ hop
    rw [hgames] at hm'
    replace hm' : (if gid = s.nextGameId then
        some (startGameRecord sender encDeck encryptedBet plainBet)
      else s.games gid) = some g' := hm'
    rw [if_neg (by omega), hg] at hm'
    obtain rfl := (Option.some.inj hm').symm
    exact ⟨fun _ => rfl, le_rfl⟩
  | payoutOp sender gid0 w =>
    obtain ⟨hgames, _⟩ := payout_ok_shape _ _ _ _ _ hop
    rw [hgames, hg] at hm'
    obtain rfl := (Option.some.inj hm').symm
    exact ⟨fun _ => rfl, le_rfl⟩
  | buyOp sender value =>
    obtain ⟨hgames, _⟩ := buy_ok_shape _ _ _ _ hop
    rw [hgames, hg] at hm'
    obtain rfl := (Option.some.inj hm').symm
    exact ⟨fun _ => rfl, le_rfl⟩
  | sellOp sender chipAmount =>
    obtain ⟨hgames, _⟩ := sell_ok_shape _ _ _ _ hop
    rw [hgames, hg] at hm'
    obtain rfl := (Option.some.inj hm').symm
    exact ⟨fun _ => rfl, le_rfl⟩
  | receiveOp value =>
    obtain rfl := Except.ok.inj hop
    replace hm' : s.games gid = some g' := hm'
    rw [hg] at hm'
    obtain rfl := (Option.some.inj hm').symm
    exact ⟨fun _ => rfl, le_rfl⟩

/-- C10: on every reachable state, a successful `hit` preserves
`playerSum > 21` (the base sum only grows and the soft-Ace promotion can
never apply above 21), and once `bustFlag` is 1 a later `hit` computes it
as 1 again. -/
theorem bust_monotone (s : BJState) (hs : Reachable s) (sender gid : Nat)
    (g : Game) (hg : s.games gid = some g) (s' : BJState) (g' : Game)
    (hhit : hit s sender gid = .ok s') (hg' : s'.games gid = some g') :
    (21 < g.playerSum → 21 < g'.playerSum) ∧
    (g.bustFlag = 1 → g'.bustFlag = 1) := by
  obtain ⟨hn, hInvG⟩ := reachable_inv s hs
  obtain ⟨h1, h4, h52, hdeck, hpb, hsum, hbust, hhole⟩ := hInvG gid g hg
  obtain ⟨g0, hm0, _, _, hdk0, rfl⟩ := hit_ok_shape _ _ _ _ hhit
  rw [hg] at hm0
  obtain rfl := Option.some.inj hm0
  rw [setGame_games, if_pos rfl] at hg'
  obtain rfl := (Option.some.inj hg').symm
  have hv := getBlackjackBaseValue_le (g.deck ⟨g.deckIndex, hdk0⟩) (hdeck _)
  have hpb' : (hitGame g hdk0).playerBaseSum =
      g.playerBaseSum + getBlackjackBaseValue (g.deck ⟨g.deckIndex, hdk0⟩)
      := by
    rw [hitGame_playerBaseSum, W32_eq]
    omega
  have hmain : 21 < g.playerSum → 21 < (hitGame g hdk0).playerSum := by
    intro hgt
    rw [hsum, calc_gt21_iff _ _ (by rw [W32_eq]; omega)] at hgt
    rw [hitGame_playerSum_calc,
      calc_gt21_iff _ _ (by rw [hpb', W32_eq]; omega), hpb']
    omega
  refine ⟨hmain, ?_⟩
  intro hbf
  have h21 := hmain (hbust hbf)
  rw [hitGame_bustFlag, if_pos h21]

theorem step_s1 : applyOp initialState (Op.buyOp 7 oneEther) = .ok traceS1 :=
  rfl

theorem step_s2 : applyOp traceS1 (Op.start 7 demoDeck 100 100) =
    .ok traceS2 := rfl

theorem step_s3 : applyOp traceS2 (Op.hitOp 7 1) = .ok traceS3 := rfl

theorem step_s5 : applyOp traceS2 (Op.standOp 7 1) = .ok traceS5 := rfl

theorem step_s6 : applyOp traceS5 (Op.endGameOp 1) = .ok traceS6 := rfl

theorem reach2 : Reachable traceS2 :=
  Relation.ReflTransGen.tail
    (Relation.ReflTransGen.tail Relation.ReflTransGen.refl ⟨_, step_s1⟩)
    ⟨_, step_s2⟩

theorem reach3 : Reachable traceS3 :=
  Relation.ReflTransGen.tail reach2 ⟨_, step_s3⟩

theorem reach5 : Reachable traceS5 :=
  Relation.ReflTransGen.tail reach2 ⟨_, step_s5⟩

theorem reach6 : Reachable traceS6 :=
  Relation.ReflTransGen.tail reach5 ⟨_, step_s6⟩

/-- Witness for C7 on the concrete reachable state `traceS2`. -/
theorem deck_cursor_spec_witness :
    (4 ≤ traceG2.deckIndex ∧ traceG2.deckIndex ≤ 52) ∧
    (∀ sender encDeck encryptedBet plainBet,
      (startGameRecord sender encDeck encryptedBet plainBet).deckIndex = 4) ∧
    (∀ sender, 52 ≤ traceG2.deckIndex →
      (hit traceS2 sender 1).isOk = false ∧
      (dealerHit traceS2 1).isOk = false) ∧
    (∀ op s' g', applyOp traceS2 op = .ok s' → s'.games 1 = some g' →
      traceG2.deckIndex ≤ g'.deckIndex ∧
      (g'.deckIndex = traceG2.deckIndex ∨
        g'.deckIndex = traceG2.deckIndex + 1) ∧
      (g'.deckIndex ≠ traceG2.deckIndex →
        (∃ sender, op = Op.hitOp sender 1) ∨ op = Op.dealerHitOp 1)) :=
  deck_cursor_spec traceS2 reach2 1 traceG2 rfl

/-- Witness for C8 on the concrete reachable state `traceS6`, whose single
game is `Completed`. -/
theorem completed_read_only_witness :
    (∀ sender, ∃ e, hit traceS6 sender 1 = .error e) ∧
    (∀ sender, ∃ e, stand traceS6 sender 1 = .error e) ∧
    (∃ e, dealerHit traceS6 1 = .error e) ∧
    (∀ sender, ∃ e, setBustPhase traceS6 sender 1 = .error e) ∧
    (∀ op s' g', applyOp traceS6 op = .ok s' → s'.games 1 = some g' →
      g'.phase = Phase.Completed) :=
  completed_read_only traceS6 reach6 1 traceG6 rfl rfl

/-- Witness for C3 on the concrete reachable state `traceS2`. -/
theorem hole_card_privacy_witness :
    (traceG2.phase ≠ Phase.Completed →
      traceG2.deckLevel holeIdx = Level.engineOnly) ∧
    (∀ op s' g', applyOp traceS2 op = .ok s' → s'.games 1 = some g' →
      ((∀ gid0, op ≠ Op.endGameOp gid0) →
        g'.deckLevel holeIdx = traceG2.deckLevel holeIdx) ∧
      (traceG2.deckLevel holeIdx).toNat ≤
        (g'.deckLevel holeIdx).toNat) :=
  hole_card_privacy traceS2 reach2 1 traceG2 rfl

/-- Witness for C10 on the concrete reachable state `traceS3`, where the
player already busted at 30, and a further `hit` is applied. -/
theorem bust_monotone_witness :
    21 < traceG3.playerSum ∧ traceG3.bustFlag = 1 ∧
    ((21 < traceG3.playerSum → 21 < traceG4.playerSum) ∧
     (traceG3.bustFlag = 1 → traceG4.bustFlag = 1)) :=
  ⟨by decide, by decide,
    bust_monotone traceS3 reach3 7 1 traceG3 rfl traceS4 traceG4 rfl rfl⟩

end FHEBlackjack
